import Mathlib

/-!
Verification development for the `taring` tool: a program that recursively
lists an object-store namespace, fetches every leaf object, and packages the
results into a tar archive compressed with gzip.

The Go source (`taring.go` and the benchmark harness) is shallowly embedded
below.  External standard-library collaborators (time parsing, the gzip
compressor, process uid/gid, the current clock) are modelled as parameters of
an `Env` record; `filepath.Clean` and `filepath.Rel` are transliterated from
the Go standard library for Unix (separator `/`, empty volume names) because
the relative-name computation of the tool depends on their exact behaviour;
the tar container format is modelled from the spec (fixed-size header block
holding name, size, mode, three timestamps, owner ids and an entry type,
payload padded to a 512-byte block boundary, stream terminated by two
all-zero blocks).
-/

set_option maxRecDepth 100000

deriving instance DecidableEq for Except

namespace Taring

/-- Bytes are modelled as natural numbers. -/
abbrev Bytes := List Nat

/-- The bytes of a string, one per character code. -/
def strBytes (s : String) : Bytes :=
  s.toList.map Char.toNat

/-- Split a character list on the `/` separator. -/
def splitSlash : List Char → List (List Char)
  | [] => [[]]
  | c :: rest =>
    match splitSlash rest with
    | [] => [[c]]
    | g :: gs => if c = '/' then [] :: g :: gs else (c :: g) :: gs

/-- The `..` path element. -/
def dotdot : List Char := ['.', '.']

/-- Stack-based core of `filepath.Clean` (Unix): process the non-empty,
non-`.` path elements left to right; `..` pops the most recent real element,
accumulates at the front of a relative path, and is dropped at the root of a
rooted path.  The stack is kept most-recent-first and reversed at the end. -/
def cleanLoop (rooted : Bool) : List (List Char) → List (List Char) → List (List Char)
  | stk, [] => stk.reverse
  | stk, e :: rest =>
    if e = dotdot then
      match stk with
      | top :: stk' =>
        if top = dotdot then cleanLoop rooted (dotdot :: top :: stk') rest
        else cleanLoop rooted stk' rest
      | [] =>
        if rooted then cleanLoop rooted [] rest
        else cleanLoop rooted [dotdot] rest
    else cleanLoop rooted (e :: stk) rest

/-- `filepath.Clean` on Unix, transliterated on character lists: shortest
lexically-equivalent path (collapse repeated separators, drop `.` elements,
resolve `..` against preceding elements, clamp `..` at a rooted root); the
empty path cleans to `.`. -/
def goClean (s : List Char) : List Char :=
  if s = [] then ['.']
  else
    let rooted : Bool := s.head? = some '/'
    let elems := (splitSlash s).filter (fun e => ¬(e = [] ∨ e = ['.']))
    let stk := cleanLoop rooted [] elems
    if rooted then '/' :: (stk.intersperse ['/']).flatten
    else if stk = [] then ['.']
    else (stk.intersperse ['/']).flatten

/-- The element-matching loop of `filepath.Rel`: compare the two current
`/`-separated elements (an exhausted side contributes the empty element, as
Go's `base[b0:bi]` slice does) and break only on a mismatch; on a match,
consume the element and the separator that follows it from each side that
still has characters.  Returns the remainders positioned at the first
differing elements.  Go's loop has no exit condition of its own — for
distinct cleaned inputs the elements cannot match with both sides exhausted;
when the fuel runs out there (only possible in that unreachable state) the
remainders are returned unchanged. -/
def relLoopF : Nat → List Char → List Char → List Char × List Char
  | 0, b, t => (b, t)
  | fuel + 1, b, t =>
    let be := b.takeWhile (fun c => c ≠ '/')
    let te := t.takeWhile (fun c => c ≠ '/')
    if be = te then
      if b = [] ∧ t = [] then (b, t)
      else relLoopF fuel ((b.drop be.length).drop 1) ((t.drop te.length).drop 1)
    else (b, t)

/-- The loop runs with fuel `b.length + t.length`: every iteration that
recurses consumes at least one character of one side. -/
def relLoop (b t : List Char) : List Char × List Char :=
  relLoopF (b.length + t.length) b t

/-- `filepath.Rel` on Unix, transliterated: clean both paths; equal cleaned
paths yield `.`; a `.` base becomes empty; mixing a rooted and an unrooted
path is an error; otherwise strip the common element-wise prefix, refuse when
the first differing base element is `..`, and emit one `..` per remaining
base element followed by the remaining target. -/
def goRel (basepath targpath : List Char) : Except (List Char) (List Char) :=
  let relErr : Except (List Char) (List Char) :=
    .error (('R' :: 'e' :: 'l' :: ':' :: ' ' :: []) ++
      ('c' :: 'a' :: 'n' :: '\'' :: 't' :: ' ' :: 'm' :: 'a' :: 'k' :: 'e' :: ' ' :: []) ++
      targpath ++
      (' ' :: 'r' :: 'e' :: 'l' :: 'a' :: 't' :: 'i' :: 'v' :: 'e' :: ' ' :: 't' :: 'o' :: ' ' :: []) ++
      basepath)
  let base0 := goClean basepath
  let targ := goClean targpath
  if targ = base0 then .ok ['.']
  else
    let base := if base0 = ['.'] then [] else base0
    let baseSlashed : Bool := base.head? = some '/'
    let targSlashed : Bool := targ.head? = some '/'
    if baseSlashed ≠ targSlashed then relErr
    else
      let p := relLoop base targ
      let bRem := p.1
      let tRem := p.2
      let firstElem : List Char := bRem.takeWhile (fun c => c ≠ '/')
      if firstElem = dotdot then relErr
      else if bRem ≠ [] then
        let seps := (bRem.filter (fun c => c = '/')).length
        .ok (dotdot ++ (List.replicate seps ('/' :: dotdot)).flatten ++
          (if tRem ≠ [] then '/' :: tRem else []))
      else .ok tRem

/-- `filepath.Rel` lifted to strings. -/
def goRelStr (basepath targpath : String) : Except String String :=
  match goRel basepath.toList targpath.toList with
  | .error e => .error (String.mk e)
  | .ok r => .ok (String.mk r)

/-- One key of a store listing, mirroring the fields of `s3.Key` that the
program reads: the fully-qualified key, its store-reported last-modified
timestamp string, and its advertised size (used only for logging). -/
structure Key where
  key : String
  lastModified : String
  size : Nat
deriving DecidableEq, Repr

/-- The result of one delimited listing call, mirroring `s3.ListResp`:
direct leaf keys, child groupings, and the truncation indicator. -/
structure Listing where
  contents : List Key
  commonPrefixes : List String
  isTruncated : Bool
deriving DecidableEq, Repr

/-- The object store, at the interface the program consumes:
`list bktPath delim marker maxKeys` and `get key`, both fallible. -/
structure Store where
  list : String → String → String → Nat → Except String Listing
  get : String → Except String Bytes

/-- Modelled from the spec: the external standard-library collaborators the
core calls — `time.Parse` (RFC3339Nano, modelled as an arbitrary fallible
parser into an abstract instant), `time.Now`, `os.Getuid`, `os.Getgid`, and
the gzip compressor (an arbitrary byte-stream function). -/
structure Env where
  parseTime : String → Except String Nat
  now : Nat
  uid : Nat
  gid : Nat
  gzip : Bytes → Bytes

/-- One retrieved object: `S3Content` from the source — the path relative to
the traversal root, the store-reported modification instant, and the byte
payload. -/
structure S3Content where
  Name : String
  LastMod : Nat
  Data : Bytes
deriving DecidableEq, Repr

/-- `%q`-style quoting used by the source's error messages (without inner
escaping, which the claims never exercise). -/
def quoted (s : String) : String :=
  "\"" ++ s ++ "\""

/-- The per-key fetch task launched by `fetchAll`: parse the last-modified
timestamp, compute the key's path relative to `base`, fetch the bytes, and
build one `S3Content`; each step's failure is reported with the source's
message. -/
def doFetch (env : Env) (bkt : Store) (base : String) (k : Key) :
    Except String S3Content :=
  match env.parseTime k.lastModified with
  | .error e => .error ("failed to parse time of " ++ quoted k.lastModified ++ ": " ++ e)
  | .ok lastMod =>
    match goRelStr base k.key with
    | .error e => .error ("failed to find relative path for " ++ quoted k.key ++ ": " ++ e)
    | .ok relPath =>
      match bkt.get k.key with
      | .error e => .error ("failed fetch of " ++ quoted k.key ++ ": " ++ e)
      | .ok data => .ok { Name := relPath, LastMod := lastMod, Data := data }

/-- The error projection used when draining the level's error channel. -/
def errProj : Except String S3Content → Option String
  | .error e => some e
  | .ok _ => none

/-- The separator `strings.Join(errs, ",")` uses. -/
def commaSep : String := ","

/-- The aggregated error text of a failed level: count plus joined messages. -/
def levelErrMsg (errs : List String) : String :=
  toString errs.length ++ " errors: " ++ String.intercalate commaSep errs

/-- `fetchAll`: run one fetch task per key (the concurrent fan-out is
sequentialized in key order), gather the successful contents and the failure
messages, and fail the whole level with the aggregated message when any task
failed — discarding the successfully fetched contents. -/
def fetchAll (env : Env) (bkt : Store) (prfx base : String) (keys : List Key) :
    Except String (List S3Content) :=
  let results := keys.map (doFetch env bkt base)
  let contents := results.filterMap (fun r => r.toOption)
  let errs := results.filterMap errProj
  if errs.length ≠ 0 then .error (levelErrMsg errs)
  else .ok contents

/-- The child-prefix loop of `fetchPath`: recurse (through `recur`) into each
common prefix in listing order, appending each recursive result to the
accumulated contents; the first failure aborts. -/
def fetchFolders (recur : String → Except String (List S3Content)) :
    List S3Content → List String → Except String (List S3Content)
  | acc, [] => .ok acc
  | acc, folder :: rest =>
    match recur folder with
    | .error e => .error e
    | .ok newContent => fetchFolders recur (acc ++ newContent) rest

/-- `fetchPath`: list the current path with delimiter `/`, empty marker and a
page cap of 10000, fetch this level's keys through `fetchAll`, then recurse
depth-first into the listing's common prefixes in order.  The extra `Nat`
fuel bounds the recursion depth (the Go recursion has no such bound; every
claim about a successful traversal instantiates an arbitrary sufficient
fuel). -/
def fetchPath (env : Env) (bkt : Store) :
    Nat → String → String → String → Except String (List S3Content)
  | 0, _, _, _ => .error "recursion depth exhausted"
  | fuel + 1, prfx, root, bktPath =>
    match bkt.list bktPath "/" "" 10000 with
    | .error e => .error ("couldn't list bucket at path " ++ quoted bktPath ++ ": " ++ e)
    | .ok listing =>
      match fetchAll env bkt prfx root listing.contents with
      | .error e => .error ("fetching content of keys at " ++ quoted bktPath ++ ", " ++ e)
      | .ok contents =>
        fetchFolders (fetchPath env bkt fuel (prfx ++ "\t") root)
          contents listing.commonPrefixes

/-- `os.ModePerm & 0644` — the fixed default permission bits (octal 644). -/
def filePerms : Nat := 420

/-- `tar.TypeReg` — the byte `'0'` marking a regular-file entry. -/
def typeReg : Nat := 48

/-- The tar entry header, mirroring the fields of `tar.Header` that
`TarHeader` populates. -/
structure Header where
  Name : String
  Size : Nat
  Mode : Nat
  AccessTime : Nat
  ChangeTime : Nat
  ModTime : Nat
  Typeflag : Nat
  Uid : Nat
  Gid : Nat
deriving DecidableEq, Repr

/-- `S3Content.TarHeader` from the source: the archive entry header derived
from one fetched object and the process context. -/
def S3Content.TarHeader (env : Env) (s : S3Content) : Header :=
  { Name := s.Name
    Size := s.Data.length
    Mode := filePerms
    AccessTime := env.now
    ChangeTime := s.LastMod
    ModTime := s.LastMod
    Typeflag := typeReg
    Uid := env.uid
    Gid := env.gid }

/-- Big-endian octal digits, driven by a structural fuel. -/
def octDigitsF : Nat → Nat → List Nat
  | _, 0 => []
  | 0, _ + 1 => []
  | fuel + 1, v + 1 => octDigitsF fuel ((v + 1) / 8) ++ [(v + 1) % 8]

/-- Big-endian octal digits of a number (`[]` for zero); fuel `v` suffices
because the value shrinks by a factor of eight per digit. -/
def octDigits (v : Nat) : List Nat :=
  octDigitsF v v

/-- Modelled from the spec: a numeric header field of width `w` — ASCII
octal digits left-padded with `'0'`, closed by a NUL byte. -/
def octField (w v : Nat) : Bytes :=
  List.replicate (w - 1 - (octDigits v).length) 48 ++
    (octDigits v).map (fun d => d + 48) ++ [0]

/-- Decode a numeric header field: fold the octal digits, ignoring the
padding NUL. -/
def decodeOct (bs : Bytes) : Nat :=
  bs.foldl (fun a b => if 48 ≤ b ∧ b < 56 then a * 8 + (b - 48) else a) 0

/-- The tar block size. -/
def blockSize : Nat := 512

/-- Size of the zero padding that follows a payload of `n` bytes, filling
the entry out to a block boundary. -/
def padLen (n : Nat) : Nat :=
  (blockSize - n % blockSize) % blockSize

/-- Modelled from the spec: the archive's trailing terminator — two all-zero
blocks. -/
def terminator : Bytes := List.replicate 1024 0

/-- A header can be written to the fixed-size block iff its name is
non-empty, at most 100 bytes, free of NUL bytes, and its numeric fields fit
their octal widths. -/
def validHeaderB (h : Header) : Bool :=
  let nb := strBytes h.Name
  decide (0 < nb.length) && decide (nb.length ≤ 100) &&
    nb.all (fun b => b ≠ 0) &&
    decide (h.Mode < 8 ^ 7) && decide (h.Uid < 8 ^ 7) && decide (h.Gid < 8 ^ 7) &&
    decide (h.Size < 8 ^ 11) && decide (h.ModTime < 8 ^ 11) &&
    decide (h.AccessTime < 8 ^ 11) && decide (h.ChangeTime < 8 ^ 11)

/-- Modelled from the spec: the fixed 512-byte header block — NUL-padded
name (100), octal mode, uid and gid (8 each), octal size, modification,
access and change times (12 each), the entry-type byte, and zero fill. -/
def encodeHeader (h : Header) : Bytes :=
  strBytes h.Name ++ List.replicate (100 - (strBytes h.Name).length) 0 ++
    octField 8 h.Mode ++ octField 8 h.Uid ++ octField 8 h.Gid ++
    octField 12 h.Size ++ octField 12 h.ModTime ++
    octField 12 h.AccessTime ++ octField 12 h.ChangeTime ++
    [h.Typeflag] ++ List.replicate 339 0

/-- `tar.Writer.WriteHeader`'s fallible encoding: the block when the header
is valid for the fixed-size format, failure otherwise. -/
def encodeHeaderE (h : Header) : Option Bytes :=
  if validHeaderB h then some (encodeHeader h) else none

/-- The full byte run of one archive entry: header block, payload, and zero
padding to the block boundary (empty when the header is invalid). -/
def entryBytes (env : Env) (o : S3Content) : Bytes :=
  ((encodeHeaderE (o.TarHeader env)).getD []) ++ o.Data ++
    List.replicate (padLen o.Data.length) 0

/-- An output sink: given the bytes received so far and a chunk, produce the
new received bytes and possibly an error — the shape of `io.Writer` where
the state is the byte stream absorbed so far. -/
abbrev GoWriter := Bytes → Bytes → Bytes × Option String

/-- `tarify` over an arbitrary sink, shared by the main tool and the
benchmark harness: for each object write the header block (failing with
"writing header of …"), then the payload and its padding (failing with
"writing content of …"), and after all entries write the two-block
terminator (failing with "closing tar buffer, …").  Returns the sink's final
byte stream and the error, if any. -/
def tarifyW (env : Env) (wr : GoWriter) : Bytes → List S3Content → Bytes × Option String
  | s, [] =>
    match wr s terminator with
    | (s', none) => (s', none)
    | (s', some e) => (s', some ("closing tar buffer, " ++ e))
  | s, o :: rest =>
    match encodeHeaderE (o.TarHeader env) with
    | none => (s, some ("writing header of " ++ quoted o.Name ++ ", invalid header"))
    | some hb =>
      match wr s hb with
      | (s', some e) => (s', some ("writing header of " ++ quoted o.Name ++ ", " ++ e))
      | (s', none) =>
        match wr s' (o.Data ++ List.replicate (padLen o.Data.length) 0) with
        | (s'', some e) => (s'', some ("writing content of " ++ quoted o.Name ++ ", " ++ e))
        | (s'', none) => tarifyW env wr s'' rest

/-- The never-failing in-memory buffer sink (`bytes.Buffer`). -/
def bufWrite : GoWriter := fun s c => (s ++ c, none)

/-- `tarify` as the main tool uses it: write all entries into an in-memory
buffer, returning the archive bytes or the first error. -/
def tarify (env : Env) (objects : List S3Content) : Except String Bytes :=
  match tarifyW env bufWrite [] objects with
  | (s, none) => .ok s
  | (_, some e) => .error e

/-- Decode the name (NUL-terminated, first 100 bytes) and the size (octal
field at offset 124) recorded in a header block. -/
def decodeHeader (block : Bytes) : Bytes × Nat :=
  ((block.take 100).takeWhile (fun b => b ≠ 0), decodeOct ((block.drop 124).take 12))

/-- Decode a tar byte stream: read entries header-by-header until the
two-block terminator, returning each entry's recorded name, recorded size
and payload; `none` on a malformed stream. -/
def untarF : Nat → Bytes → Option (List (Bytes × Nat × Bytes))
  | 0, bs => if bs = terminator then some [] else none
  | fuel + 1, bs =>
    if bs = terminator then some []
    else if (bs.take blockSize).length < blockSize then none
    else if (decodeHeader (bs.take blockSize)).1 = [] then none
    else if bs.length <
        blockSize + (decodeHeader (bs.take blockSize)).2 +
          padLen (decodeHeader (bs.take blockSize)).2 then none
    else
      match untarF fuel (bs.drop (blockSize + (decodeHeader (bs.take blockSize)).2 +
          padLen (decodeHeader (bs.take blockSize)).2)) with
      | none => none
      | some es =>
        some (((decodeHeader (bs.take blockSize)).1,
          (decodeHeader (bs.take blockSize)).2,
          (bs.drop blockSize).take (decodeHeader (bs.take blockSize)).2) :: es)

/-- Decode a tar byte stream (fuel `bs.length` suffices: every entry
consumes at least one whole block). -/
def untar (bs : Bytes) : Option (List (Bytes × Nat × Bytes)) :=
  untarF bs.length bs

/-- The pipeline of `main` after flag handling: walk the namespace from
`bktPath`, tar the accumulated contents, and gzip the archive.  An `.ok`
value is the byte stream persisted to the destination file; an `.error`
means the process aborts with nothing persisted. -/
def run (env : Env) (bkt : Store) (fuel : Nat) (bktPath : String) :
    Except String Bytes :=
  match fetchPath env bkt fuel "" bktPath bktPath with
  | .error e => .error ("couldn't fetch " ++ quoted bktPath ++ ": " ++ e)
  | .ok contents =>
    match tarify env contents with
    | .error e => .error ("tarifying content, " ++ e)
    | .ok tarArch => .ok (env.gzip tarArch)

/-! ### Concrete demonstration data -/

/-- A demonstration timestamp string. -/
def tsD : String := "2014-01-01T00:00:00Z"

/-- A demonstration environment: a time parser accepting exactly `tsD`, a
fixed clock and process ids, and the identity compressor. -/
def envD : Env :=
  { parseTime := fun s => if s = tsD then .ok 7 else .error "bad time"
    now := 11
    uid := 3
    gid := 4
    gzip := id }

/-- The bytes of `"hello"`. -/
def helloB : Bytes := [104, 101, 108, 108, 111]

/-- The bytes of `"world"`. -/
def worldB : Bytes := [119, 111, 114, 108, 100]

/-- The spec's concrete scenario: root `root/` has leaf `root/x` (content
`hello`) and child prefix `root/sub/` containing leaf `root/sub/y` (content
`world`). -/
def demoStore : Store :=
  { list := fun path _ _ _ =>
      if path = "root/" then .ok ⟨[⟨"root/x", tsD, 5⟩], ["root/sub/"], false⟩
      else if path = "root/sub/" then .ok ⟨[⟨"root/sub/y", tsD, 5⟩], [], false⟩
      else .error "no such path"
    get := fun k =>
      if k = "root/x" then .ok helloB
      else if k = "root/sub/y" then .ok worldB
      else .error "404" }

/-- `demoStore` with every listing marked truncated. -/
def demoStoreTrunc : Store :=
  { list := fun path delim marker maxKeys =>
      match demoStore.list path delim marker maxKeys with
      | .error e => .error e
      | .ok l => .ok { l with isTruncated := true }
    get := demoStore.get }

/-- `demoStore` whose fetch of `root/sub/y` fails. -/
def demoStoreBadGet : Store :=
  { list := demoStore.list
    get := fun k => if k = "root/sub/y" then .error "boom" else demoStore.get k }

/-- A store whose listing of `root/` reports the key `other/key`, which does
not lie under that root. -/
def outsideStore : Store :=
  { list := fun path _ _ _ =>
      if path = "root/" then .ok ⟨[⟨"other/key", tsD, 3⟩], [], false⟩
      else .error "no such path"
    get := fun k => if k = "other/key" then .ok [1, 2, 3] else .error "404" }

/-- A store whose root listing of `empty/` is empty. -/
def emptyStore : Store :=
  { list := fun path _ _ _ =>
      if path = "empty/" then .ok ⟨[], [], false⟩ else .error "no such path"
    get := fun _ => .error "404" }

/-- A sink that refuses every write, absorbing nothing. -/
def failWrite : GoWriter := fun s _ => (s, some "boom")

/-- The traversal output of the demonstration scenario. -/
def outD : List S3Content := [⟨"x", 7, helloB⟩, ⟨"sub/y", 7, worldB⟩]


/-- Total number of leaf keys a traversal of the given depth sees under a
path: the keys of this level's single listing page plus, recursively, the
leaves under each child prefix. -/
def countLeaves (bkt : Store) : Nat → String → Nat
  | 0, _ => 0
  | fuel + 1, path =>
    match bkt.list path "/" "" 10000 with
    | .error _ => 0
    | .ok listing =>
      listing.contents.length + (listing.commonPrefixes.map (countLeaves bkt fuel)).sum

/-- Listings that agree on page content (though possibly not on the
truncation flag or on pages at other parameters). -/
def sameListing : Except String Listing → Except String Listing → Prop
  | .error e1, .error e2 => e1 = e2
  | .ok l1, .ok l2 => l1.contents = l2.contents ∧ l1.commonPrefixes = l2.commonPrefixes
  | _, _ => False

/-! ### Octal-field lemmas -/

theorem octDigitsF_norm : ∀ (f : Nat), ∀ v : Nat, v ≤ f → octDigitsF f v = octDigits v := by
  intro f
  induction f using Nat.strong_induction_on with
  | _ f ih =>
    intro v hv
    cases v with
    | zero => cases f <;> rfl
    | succ w =>
      cases f with
      | zero => omega
      | succ f' =>
        rw [octDigitsF]
        rw [ih f' (by omega) ((w + 1) / 8) (by omega)]
        have hx : octDigits (w + 1) = octDigitsF w ((w + 1) / 8) ++ [(w + 1) % 8] := rfl
        rw [hx, ih w (by omega) ((w + 1) / 8) (by omega)]

theorem octDigits_unfold (v : Nat) :
    octDigits v = if v = 0 then [] else octDigits (v / 8) ++ [v % 8] := by
  cases v with
  | zero => rfl
  | succ w =>
    rw [if_neg (Nat.succ_ne_zero w)]
    have hx : octDigits (w + 1) = octDigitsF w ((w + 1) / 8) ++ [(w + 1) % 8] := rfl
    rw [hx, octDigitsF_norm w ((w + 1) / 8) (by omega)]

theorem octDigits_lt (v : Nat) : ∀ d ∈ octDigits v, d < 8 := by
  induction v using Nat.strong_induction_on with
  | _ v ih =>
    intro d hd
    rw [octDigits_unfold] at hd
    by_cases h : v = 0
    · simp [h] at hd
    · simp only [h, if_false, List.mem_append, List.mem_singleton] at hd
      rcases hd with h1 | h2
      · exact ih (v / 8) (Nat.div_lt_self (Nat.pos_of_ne_zero h) (by norm_num)) d h1
      · rw [h2]; exact Nat.mod_lt _ (by norm_num)

theorem foldl_horner (v : Nat) : ∀ a : Nat,
    List.foldl (fun x d => x * 8 + d) a (octDigits v) =
      a * 8 ^ (octDigits v).length + v := by
  induction v using Nat.strong_induction_on with
  | _ v ih =>
    intro a
    rw [octDigits_unfold]
    by_cases h : v = 0
    · simp [h]
    · simp only [h, if_false, List.foldl_append, List.foldl_cons, List.foldl_nil,
        List.length_append, List.length_singleton]
      rw [ih (v / 8) (Nat.div_lt_self (Nat.pos_of_ne_zero h) (by norm_num))]
      have hdm := Nat.div_add_mod v 8
      have : a * 8 ^ ((octDigits (v / 8)).length + 1) =
          a * 8 ^ (octDigits (v / 8)).length * 8 := by ring
      rw [this]
      omega

theorem octDigits_length_le (k : Nat) : ∀ v : Nat, v < 8 ^ k → (octDigits v).length ≤ k := by
  induction k with
  | zero =>
    intro v hv
    have : v = 0 := by simpa using Nat.lt_one_iff.mp hv
    rw [this, octDigits_unfold]; simp
  | succ k ih =>
    intro v hv
    rw [octDigits_unfold]
    by_cases h : v = 0
    · simp [h]
    · simp only [h, if_false, List.length_append, List.length_singleton]
      have hdiv : v / 8 < 8 ^ k := by
        rw [Nat.div_lt_iff_lt_mul (by norm_num : 0 < 8)]
        calc v < 8 ^ (k + 1) := hv
        _ = 8 ^ k * 8 := by rw [pow_succ]
      have := ih (v / 8) hdiv
      omega

theorem foldl_decode_replicate (j : Nat) :
    List.foldl (fun a b => if 48 ≤ b ∧ b < 56 then a * 8 + (b - 48) else a) 0
      (List.replicate j 48) = 0 := by
  induction j with
  | zero => simp
  | succ j ih => simpa using ih

theorem foldl_decode_digits (ds : Bytes) : ∀ a : Nat, (∀ d ∈ ds, d < 8) →
    List.foldl (fun a b => if 48 ≤ b ∧ b < 56 then a * 8 + (b - 48) else a) a
      (ds.map (fun d => d + 48)) =
      List.foldl (fun x d => x * 8 + d) a ds := by
  induction ds with
  | nil => intro a _; rfl
  | cons d ds ih =>
    intro a hds
    have hd : d < 8 := hds d (by simp)
    simp only [List.map_cons, List.foldl_cons]
    rw [if_pos (by omega)]
    have : d + 48 - 48 = d := by omega
    rw [this]
    exact ih _ (fun x hx => hds x (by simp [hx]))

theorem decodeOct_octField (w v : Nat) : decodeOct (octField w v) = v := by
  unfold decodeOct octField
  rw [List.foldl_append, List.foldl_append]
  rw [foldl_decode_replicate]
  rw [foldl_decode_digits _ _ (octDigits_lt v)]
  rw [foldl_horner]
  simp

theorem octField_length (w v : Nat) (hw : 0 < w)
    (h : (octDigits v).length ≤ w - 1) : (octField w v).length = w := by
  simp only [octField, List.length_append, List.length_replicate,
    List.length_map, List.length_singleton]
  omega

/-! ### Header-block lemmas -/

/-- Unpacked form of header validity. -/
theorem validHeaderB_iff (h : Header) : validHeaderB h = true ↔
    0 < (strBytes h.Name).length ∧ (strBytes h.Name).length ≤ 100 ∧
    (∀ b ∈ strBytes h.Name, b ≠ 0) ∧
    h.Mode < 8 ^ 7 ∧ h.Uid < 8 ^ 7 ∧ h.Gid < 8 ^ 7 ∧
    h.Size < 8 ^ 11 ∧ h.ModTime < 8 ^ 11 ∧
    h.AccessTime < 8 ^ 11 ∧ h.ChangeTime < 8 ^ 11 := by
  simp [validHeaderB, List.all_eq_true, and_assoc]

theorem encodeHeader_length (h : Header) (hv : validHeaderB h = true) :
    (encodeHeader h).length = 512 := by
  rw [validHeaderB_iff] at hv
  obtain ⟨h1, h2, _, h4, h5, h6, h7, h8, h9, h10⟩ := hv
  have e4 := octDigits_length_le 7 _ h4
  have e5 := octDigits_length_le 7 _ h5
  have e6 := octDigits_length_le 7 _ h6
  have e7 := octDigits_length_le 11 _ h7
  have e8 := octDigits_length_le 11 _ h8
  have e9 := octDigits_length_le 11 _ h9
  have e10 := octDigits_length_le 11 _ h10
  have l4 : (octField 8 h.Mode).length = 8 := octField_length _ _ (by norm_num) (by omega)
  have l5 : (octField 8 h.Uid).length = 8 := octField_length _ _ (by norm_num) (by omega)
  have l6 : (octField 8 h.Gid).length = 8 := octField_length _ _ (by norm_num) (by omega)
  have l7 : (octField 12 h.Size).length = 12 := octField_length _ _ (by norm_num) (by omega)
  have l8 : (octField 12 h.ModTime).length = 12 := octField_length _ _ (by norm_num) (by omega)
  have l9 : (octField 12 h.AccessTime).length = 12 :=
    octField_length _ _ (by norm_num) (by omega)
  have l10 : (octField 12 h.ChangeTime).length = 12 :=
    octField_length _ _ (by norm_num) (by omega)
  simp only [encodeHeader, List.length_append, List.length_replicate,
    l4, l5, l6, l7, l8, l9, l10, List.length_singleton]
  omega

theorem takeWhile_append_zeros (nb : Bytes) (k : Nat) (h : ∀ b ∈ nb, b ≠ 0) :
    (nb ++ List.replicate k 0).takeWhile (fun b => b ≠ 0) = nb := by
  induction nb with
  | nil =>
    cases k with
    | zero => rfl
    | succ k =>
      simp only [List.nil_append, List.replicate_succ, List.takeWhile_cons]
      rw [if_neg (by simp)]
  | cons b nb ih =>
    have hb : b ≠ 0 := h b (by simp)
    have ih' := ih (fun x hx => h x (by simp [hx]))
    simp only [List.cons_append, List.takeWhile_cons]
    rw [if_pos (by simp [hb]), ih']

/-! ### Round-trip lemmas for the archive encoding -/

theorem untarF_norm : ∀ (f : Nat), ∀ bs : Bytes, bs.length ≤ f → untarF f bs = untar bs := by
  intro f
  induction f using Nat.strong_induction_on with
  | _ f ih =>
    intro bs hlen
    cases f with
    | zero =>
      have hb : bs = [] := List.eq_nil_of_length_eq_zero (by omega)
      subst hb
      rfl
    | succ f' =>
      cases hbl : bs.length with
      | zero =>
        have hb : bs = [] := List.eq_nil_of_length_eq_zero hbl
        subst hb
        rfl
      | succ L =>
        rw [untar, hbl]
        rw [untarF, untarF]
        by_cases h1 : bs = terminator
        · rw [if_pos h1, if_pos h1]
        · rw [if_neg h1, if_neg h1]
          by_cases h2 : (bs.take blockSize).length < blockSize
          · rw [if_pos h2, if_pos h2]
          · rw [if_neg h2, if_neg h2]
            by_cases h3 : (decodeHeader (bs.take blockSize)).1 = []
            · rw [if_pos h3, if_pos h3]
            · rw [if_neg h3, if_neg h3]
              by_cases h4 : bs.length < blockSize + (decodeHeader (bs.take blockSize)).2 +
                  padLen (decodeHeader (bs.take blockSize)).2
              · rw [if_pos h4, if_pos h4]
              · rw [if_neg h4, if_neg h4]
                have hb512 : blockSize = 512 := rfl
                have hdl : (bs.drop (blockSize + (decodeHeader (bs.take blockSize)).2 +
                    padLen (decodeHeader (bs.take blockSize)).2)).length =
                    bs.length - (blockSize + (decodeHeader (bs.take blockSize)).2 +
                      padLen (decodeHeader (bs.take blockSize)).2) := List.length_drop _ _
                have hrec1 := ih f' (by omega) (bs.drop (blockSize +
                  (decodeHeader (bs.take blockSize)).2 +
                  padLen (decodeHeader (bs.take blockSize)).2)) (by omega)
                have hrec2 := ih L (by omega) (bs.drop (blockSize +
                  (decodeHeader (bs.take blockSize)).2 +
                  padLen (decodeHeader (bs.take blockSize)).2)) (by omega)
                rw [hrec1, hrec2]

theorem untar_terminator : untar terminator = some [] := by decide

/-- The byte run of an entry whose header is valid. -/
theorem entryBytes_eq (env : Env) (o : S3Content)
    (hv : validHeaderB (o.TarHeader env) = true) :
    entryBytes env o = encodeHeader (o.TarHeader env) ++ o.Data ++
      List.replicate (padLen o.Data.length) 0 := by
  simp [entryBytes, encodeHeaderE, hv]

/-- Decoding the header block of a valid header recovers the name bytes and
the recorded size. -/
theorem decodeHeader_encodeHeader (h : Header) (hv : validHeaderB h = true) :
    decodeHeader (encodeHeader h) = (strBytes h.Name, h.Size) := by
  obtain ⟨h1, h2, h3, h4, h5, h6, h7, h8, h9, h10⟩ := (validHeaderB_iff h).mp hv
  have hsplit1 : encodeHeader h = (strBytes h.Name ++
      List.replicate (100 - (strBytes h.Name).length) 0) ++
      (octField 8 h.Mode ++ octField 8 h.Uid ++ octField 8 h.Gid ++
        octField 12 h.Size ++ octField 12 h.ModTime ++
        octField 12 h.AccessTime ++ octField 12 h.ChangeTime ++
        [h.Typeflag] ++ List.replicate 339 0) := by
    simp only [encodeHeader, List.append_assoc]
  have hsplit2 : encodeHeader h = ((strBytes h.Name ++
      List.replicate (100 - (strBytes h.Name).length) 0) ++
      octField 8 h.Mode ++ octField 8 h.Uid ++ octField 8 h.Gid) ++
      (octField 12 h.Size ++
        (octField 12 h.ModTime ++ octField 12 h.AccessTime ++
          octField 12 h.ChangeTime ++ [h.Typeflag] ++ List.replicate 339 0)) := by
    simp only [encodeHeader, List.append_assoc]
  have e4 := octDigits_length_le 7 _ h4
  have e5 := octDigits_length_le 7 _ h5
  have e6 := octDigits_length_le 7 _ h6
  have e7 := octDigits_length_le 11 _ h7
  have l4 : (octField 8 h.Mode).length = 8 := octField_length _ _ (by norm_num) (by omega)
  have l5 : (octField 8 h.Uid).length = 8 := octField_length _ _ (by norm_num) (by omega)
  have l6 : (octField 8 h.Gid).length = 8 := octField_length _ _ (by norm_num) (by omega)
  have l7 : (octField 12 h.Size).length = 12 := octField_length _ _ (by norm_num) (by omega)
  have hn100 : (strBytes h.Name ++
      List.replicate (100 - (strBytes h.Name).length) 0).length = 100 := by
    simp only [List.length_append, List.length_replicate]
    omega
  have hname : (encodeHeader h).take 100 = strBytes h.Name ++
      List.replicate (100 - (strBytes h.Name).length) 0 := by
    rw [hsplit1]
    exact List.take_left' hn100
  have hsize : (encodeHeader h).drop 124 = octField 12 h.Size ++
      (octField 12 h.ModTime ++ octField 12 h.AccessTime ++
        octField 12 h.ChangeTime ++ [h.Typeflag] ++ List.replicate 339 0) := by
    rw [hsplit2]
    refine List.drop_left' ?_
    simp only [List.length_append, hn100, l4, l5, l6]
  unfold decodeHeader
  rw [hname, hsize, takeWhile_append_zeros _ _ h3,
    List.take_left' l7, decodeOct_octField]

/-- Decoding a stream that starts with one valid entry peels off that
entry. -/
theorem untar_entry_cons (env : Env) (o : S3Content) (rest : Bytes)
    (es : List (Bytes × Nat × Bytes))
    (hv : validHeaderB (o.TarHeader env) = true)
    (hr : untar rest = some es) :
    untar (entryBytes env o ++ rest) =
      some ((strBytes o.Name, o.Data.length, o.Data) :: es) := by
  have hNameEq : (S3Content.TarHeader env o).Name = o.Name := rfl
  have hsz : (S3Content.TarHeader env o).Size = o.Data.length := rfl
  obtain ⟨h1, h2, h3, -⟩ := (validHeaderB_iff _).mp hv
  rw [hNameEq] at h1 h2 h3
  have ehl : (encodeHeader (S3Content.TarHeader env o)).length = 512 :=
    encodeHeader_length _ hv
  have hBdef : entryBytes env o ++ rest = encodeHeader (S3Content.TarHeader env o) ++
      (o.Data ++ (List.replicate (padLen o.Data.length) 0 ++ rest)) := by
    rw [entryBytes_eq env o hv]
    simp [List.append_assoc]
  have htake : (entryBytes env o ++ rest).take blockSize =
      encodeHeader (S3Content.TarHeader env o) := by
    rw [hBdef]
    exact List.take_left' ehl
  have hdh0 := decodeHeader_encodeHeader _ hv
  rw [hNameEq, hsz] at hdh0
  have hne : entryBytes env o ++ rest ≠ terminator := by
    intro hcontra
    have h512 : encodeHeader (S3Content.TarHeader env o) = List.replicate 512 0 := by
      have ht : (terminator : Bytes).take blockSize = List.replicate 512 0 := by decide
      rw [← htake, hcontra, ht]
    have hdec : decodeHeader (List.replicate 512 0) = ([], 0) := by decide
    rw [h512, hdec] at hdh0
    have hn0 : ([] : Bytes) = strBytes o.Name := congrArg Prod.fst hdh0
    rw [← hn0] at h1
    simp at h1
  have hdh : decodeHeader ((entryBytes env o ++ rest).take blockSize) =
      (strBytes o.Name, o.Data.length) := by
    rw [htake, hdh0]
  have hdrop512 : (entryBytes env o ++ rest).drop blockSize =
      o.Data ++ (List.replicate (padLen o.Data.length) 0 ++ rest) := by
    rw [hBdef]
    exact List.drop_left' ehl
  have hlenB : (entryBytes env o ++ rest).length =
      512 + o.Data.length + padLen o.Data.length + rest.length := by
    rw [hBdef]
    simp only [List.length_append, List.length_replicate, ehl]
    omega
  have hnotlt : ¬ (entryBytes env o ++ rest).length <
      blockSize + o.Data.length + padLen o.Data.length := by
    rw [hlenB]
    have : blockSize = 512 := rfl
    omega
  have hdropAll : (entryBytes env o ++ rest).drop
      (blockSize + o.Data.length + padLen o.Data.length) = rest := by
    have hB2 : entryBytes env o ++ rest = (encodeHeader (S3Content.TarHeader env o) ++
        (o.Data ++ List.replicate (padLen o.Data.length) 0)) ++ rest := by
      rw [hBdef]; simp [List.append_assoc]
    rw [hB2]
    refine List.drop_left' ?_
    simp only [List.length_append, List.length_replicate, ehl]
    have : blockSize = 512 := rfl
    omega
  have hpayload : ((entryBytes env o ++ rest).drop blockSize).take o.Data.length =
      o.Data := by
    rw [hdrop512]
    exact List.take_left o.Data _
  obtain ⟨L, hL⟩ : ∃ L, (entryBytes env o ++ rest).length = L + 1 :=
    ⟨(entryBytes env o ++ rest).length - 1, by omega⟩
  have hLrest : rest.length ≤ L := by
    rw [hlenB] at hL
    omega
  rw [untar, hL, untarF]
  rw [if_neg hne]
  rw [hdh]
  rw [htake]
  simp only [ehl]
  rw [if_neg (by simp [blockSize])]
  rw [if_neg (List.ne_nil_of_length_pos h1)]
  rw [if_neg hnotlt, hdropAll]
  rw [untarF_norm L rest hLrest, hr, hpayload]

/-- Writing all-valid entries to the in-memory buffer succeeds and produces
the concatenated entry runs followed by the terminator. -/
theorem tarifyW_buf_ok (env : Env) (objs : List S3Content)
    (hv : ∀ o ∈ objs, validHeaderB (o.TarHeader env) = true) :
    ∀ s : Bytes, tarifyW env bufWrite s objs =
      (s ++ ((objs.map (entryBytes env)).flatten ++ terminator), none) := by
  induction objs with
  | nil =>
    intro s
    simp [tarifyW, bufWrite]
  | cons o rest ih =>
    intro s
    have hvo : validHeaderB (o.TarHeader env) = true := hv o (by simp)
    rw [tarifyW]
    simp only [encodeHeaderE, hvo, if_true, bufWrite]
    rw [ih (fun x hx => hv x (by simp [hx]))]
    simp [entryBytes_eq env o hvo, List.append_assoc]

/-- `tarify` on all-valid entries returns the archive bytes. -/
theorem tarify_ok (env : Env) (objs : List S3Content)
    (hv : ∀ o ∈ objs, validHeaderB (o.TarHeader env) = true) :
    tarify env objs = .ok ((objs.map (entryBytes env)).flatten ++ terminator) := by
  unfold tarify
  rw [tarifyW_buf_ok env objs hv []]
  simp

/-- Decoding the archive of all-valid entries reproduces each entry's name
bytes, recorded size, and payload, in order. -/
theorem untar_archive (env : Env) (objs : List S3Content)
    (hv : ∀ o ∈ objs, validHeaderB (o.TarHeader env) = true) :
    untar ((objs.map (entryBytes env)).flatten ++ terminator) =
      some (objs.map (fun o => (strBytes o.Name, o.Data.length, o.Data))) := by
  induction objs with
  | nil => simpa using untar_terminator
  | cons o rest ih =>
    have hvo : validHeaderB (o.TarHeader env) = true := hv o (by simp)
    have ih' := ih (fun x hx => hv x (by simp [hx]))
    simp only [List.map_cons, List.flatten_cons, List.append_assoc]
    rw [untar_entry_cons env o _ _ hvo ih']

/-! ### Level-fetch lemmas -/

/-- The error projection used to collect a level's failures. -/
theorem fetchAll_eq (env : Env) (bkt : Store) (prfx base : String) (keys : List Key) :
    fetchAll env bkt prfx base keys =
      (if ((keys.map (doFetch env bkt base)).filterMap errProj).length ≠ 0 then
        .error (levelErrMsg ((keys.map (doFetch env bkt base)).filterMap errProj))
      else .ok ((keys.map (doFetch env bkt base)).filterMap (fun r => r.toOption))) :=
  rfl

/-- A level's collected failure list is empty iff every task succeeded. -/
theorem errs_nil_iff (rs : List (Except String S3Content)) :
    rs.filterMap errProj = [] ↔ ∀ r ∈ rs, ∃ c, r = .ok c := by
  induction rs with
  | nil => simp
  | cons r rs ih =>
    cases r with
    | error e => simp [List.filterMap_cons, errProj]
    | ok c =>
      simp only [List.filterMap_cons, errProj]
      simp only [ih, List.mem_cons]
      constructor
      · intro h x hx
        rcases hx with hx | hx
        · exact ⟨c, hx⟩
        · exact h x hx
      · intro h x hx
        exact h x (Or.inr hx)

/-- When every task succeeded, collecting the successes keeps the list
length. -/
theorem filterMap_toOption_length (rs : List (Except String S3Content))
    (h : ∀ r ∈ rs, ∃ c, r = .ok c) :
    (rs.filterMap (fun r => r.toOption)).length = rs.length := by
  induction rs with
  | nil => rfl
  | cons r rs ih =>
    obtain ⟨c, hc⟩ := h r (by simp)
    subst hc
    have hstep : (Except.ok c :: rs).filterMap
        (fun r : Except String S3Content => r.toOption) =
        c :: rs.filterMap (fun r => r.toOption) := rfl
    rw [hstep, List.length_cons, List.length_cons,
      ih (fun x hx => h x (by simp [hx]))]

/-- A successful level returns one object per key. -/
theorem fetchAll_ok_length (env : Env) (bkt : Store) (prfx base : String)
    (keys : List Key) (cs : List S3Content)
    (h : fetchAll env bkt prfx base keys = .ok cs) : cs.length = keys.length := by
  rw [fetchAll_eq] at h
  by_cases he : ((keys.map (doFetch env bkt base)).filterMap errProj).length ≠ 0
  · rw [if_pos he] at h
    exact absurd h (by simp)
  · rw [if_neg he] at h
    have hok : ∀ r ∈ keys.map (doFetch env bkt base), ∃ c, r = .ok c := by
      rw [← errs_nil_iff]
      simpa using he
    have := filterMap_toOption_length _ hok
    have hcs : cs = (keys.map (doFetch env bkt base)).filterMap (fun r => r.toOption) := by
      injection h with h'
      exact h'.symm
    rw [hcs, this, List.length_map]

/-- A successful folder loop means every child recursion succeeded, and the
output is the accumulator followed by the children's results in listing
order. -/
theorem fetchFolders_ok (recur : String → Except String (List S3Content)) :
    ∀ (fs : List String) (acc out : List S3Content),
      fetchFolders recur acc fs = .ok out →
      ∃ parts : List (List S3Content),
        fs.map recur = parts.map Except.ok ∧ out = acc ++ parts.flatten := by
  intro fs
  induction fs with
  | nil =>
    intro acc out h
    refine ⟨[], by simp, ?_⟩
    injection h with h'
    simp [h'.symm]
  | cons f fs ih =>
    intro acc out h
    rw [fetchFolders] at h
    cases hrec : recur f with
    | error e => rw [hrec] at h; exact absurd h (by simp)
    | ok nc =>
      rw [hrec] at h
      obtain ⟨parts, hmap, hout⟩ := ih (acc ++ nc) out h
      refine ⟨nc :: parts, ?_, ?_⟩
      · simp [hrec, hmap]
      · simp [hout, List.append_assoc]

/-- Children's result lengths sum to the recursive leaf counts. -/
theorem parts_length_sum (recur : String → Except String (List S3Content))
    (g : String → Nat)
    (hrec : ∀ f out, recur f = .ok out → out.length = g f) :
    ∀ (fs : List String) (parts : List (List S3Content)),
      fs.map recur = parts.map Except.ok →
      (parts.map List.length).sum = (fs.map g).sum := by
  intro fs
  induction fs with
  | nil =>
    intro parts h
    cases parts with
    | nil => rfl
    | cons p ps => exact absurd h (by simp)
  | cons f fs ih =>
    intro parts h
    cases parts with
    | nil => exact absurd h (by simp)
    | cons p ps =>
      simp only [List.map_cons, List.cons.injEq] at h
      obtain ⟨hp, hps⟩ := h
      simp only [List.map_cons, List.sum_cons]
      rw [ih ps hps, hrec f p hp]

/-- A successful traversal returns exactly one object per leaf key seen. -/
theorem fetchPath_ok_length (env : Env) (bkt : Store) :
    ∀ (fuel : Nat) (prfx root path : String) (out : List S3Content),
      fetchPath env bkt fuel prfx root path = .ok out →
      out.length = countLeaves bkt fuel path := by
  intro fuel
  induction fuel with
  | zero => intro prfx root path out h; exact absurd h (by simp [fetchPath])
  | succ fuel ih =>
    intro prfx root path out h
    rw [fetchPath] at h
    cases hl : bkt.list path "/" "" 10000 with
    | error e => simp only [hl] at h; exact absurd h (by simp)
    | ok listing =>
      simp only [hl] at h
      cases hf : fetchAll env bkt prfx root listing.contents with
      | error e => simp only [hf] at h; exact absurd h (by simp)
      | ok contents =>
        simp only [hf] at h
        obtain ⟨parts, hmap, hout⟩ := fetchFolders_ok _ _ _ _ h
        have hcount : countLeaves bkt (fuel + 1) path =
            listing.contents.length +
              (listing.commonPrefixes.map (countLeaves bkt fuel)).sum := by
          simp [countLeaves, hl]
        rw [hcount, hout]
        simp only [List.length_append, List.length_flatten]
        rw [fetchAll_ok_length _ _ _ _ _ _ hf]
        rw [parts_length_sum _ (countLeaves bkt fuel)
          (fun f out hfo => ih (prfx ++ "\t") root f out hfo) _ _ hmap]

/-- The folder loop only depends on the recursion function's values. -/
theorem fetchFolders_congr (r1 r2 : String → Except String (List S3Content))
    (h : ∀ f, r1 f = r2 f) :
    ∀ (fs : List String) (acc : List S3Content),
      fetchFolders r1 acc fs = fetchFolders r2 acc fs := by
  intro fs
  induction fs with
  | nil => intro acc; rfl
  | cons f fs ih =>
    intro acc
    rw [fetchFolders, fetchFolders, h f]
    cases r2 f with
    | error e => rfl
    | ok nc => exact ih (acc ++ nc)

/-! ### Claim theorems -/

/-- C5: for every fetched object, the archive entry header derived from it
has the object's name, the payload byte length as size, the fixed default
mode (octal 644), the object's last-modified instant as both modification
and change time, the current clock as access time, the process-effective uid
and gid as owner ids, and the regular-file entry type. -/
theorem claim5_header_fields (env : Env) (s : S3Content) :
    (s.TarHeader env).Name = s.Name ∧
    (s.TarHeader env).Size = s.Data.length ∧
    (s.TarHeader env).Mode = filePerms ∧ filePerms = 420 ∧
    (s.TarHeader env).ModTime = s.LastMod ∧
    (s.TarHeader env).ChangeTime = s.LastMod ∧
    (s.TarHeader env).AccessTime = env.now ∧
    (s.TarHeader env).Uid = env.uid ∧
    (s.TarHeader env).Gid = env.gid ∧
    (s.TarHeader env).Typeflag = typeReg :=
  ⟨rfl, rfl, rfl, rfl, rfl, rfl, rfl, rfl, rfl, rfl⟩

/-- C2 counterexample: the key `other/key` does not lie under the root
`root/`, yet its fetch task succeeds — with the dot-dot name `../other/key`
— instead of failing with a FetchFailure as the claim requires. -/
theorem claim2_counterexample :
    ¬ ("root/".toList <+: "other/key".toList) ∧
    doFetch envD outsideStore "root/" ⟨"other/key", tsD, 3⟩ =
      .ok ⟨"../other/key", 7, [1, 2, 3]⟩ := by
  constructor
  · decide
  · decide

/-- C2 (amended): every fetched object's name is exactly the result of
`filepath.Rel(root, key)`; a key on which that computation itself fails
(e.g. an absolute key under a relative root) yields a task failure; but a
key outside the root on which `Rel` still succeeds yields a `..`-prefixed
relative name, not a failure. -/
theorem claim2_relative_names (env : Env) (bkt : Store) (base : String) (k : Key) :
    (∀ c, doFetch env bkt base k = .ok c → goRelStr base k.key = .ok c.Name) ∧
    (∀ e, goRelStr base k.key = .error e →
      ∃ e2, doFetch env bkt base k = .error e2) := by
  constructor
  · intro c hc
    rw [doFetch] at hc
    cases hp : env.parseTime k.lastModified with
    | error e => simp only [hp] at hc; exact absurd hc (by simp)
    | ok lastMod =>
      simp only [hp] at hc
      cases hr : goRelStr base k.key with
      | error e => simp only [hr] at hc; exact absurd hc (by simp)
      | ok relPath =>
        simp only [hr] at hc
        cases hg : bkt.get k.key with
        | error e => simp only [hg] at hc; exact absurd hc (by simp)
        | ok data =>
          simp only [hg] at hc
          injection hc with hc'
          subst hc'
          rfl
  · intro e he
    rw [doFetch]
    cases hp : env.parseTime k.lastModified with
    | error e2 =>
      refine ⟨"failed to parse time of " ++ quoted k.lastModified ++ ": " ++ e2, ?_⟩
      simp only [hp]
    | ok lastMod =>
      refine ⟨"failed to find relative path for " ++ quoted k.key ++ ": " ++ e, ?_⟩
      simp only [hp, he]

/-- C2 witness: under root `root/`, key `root/a/b/c.txt` is fetched with the
relative name `a/b/c.txt`; an absolute key `/abs/key` (whose `Rel`
computation fails) makes the task fail; and under a `..`-led root `../..`
the key `..` hits `Rel`'s dot-dot refusal, so that task fails too. -/
theorem claim2_witness :
    goRelStr "root/" "root/a/b/c.txt" = .ok "a/b/c.txt" ∧
    (∃ e2, doFetch envD outsideStore "root/" ⟨"/abs/key", tsD, 1⟩ = .error e2) ∧
    goRelStr "../.." ".." = .error "Rel: can't make .. relative to ../.." ∧
    (∃ e3, doFetch envD outsideStore "../.." ⟨"..", tsD, 1⟩ = .error e3) :=
  ⟨by decide,
    (claim2_relative_names envD outsideStore "root/" ⟨"/abs/key", tsD, 1⟩).2
      "Rel: can't make /abs/key relative to root/" (by decide),
    by decide,
    (claim2_relative_names envD outsideStore "../.." ⟨"..", tsD, 1⟩).2
      "Rel: can't make .. relative to ../.." (by decide)⟩

/-- C3: a level fails iff at least one of its per-key tasks fails; the
reported error is the count of collected failure messages joined with their
texts, and on failure no fetched object of the level is returned. -/
theorem claim3_level_failure_aggregation (env : Env) (bkt : Store)
    (prfx base : String) (keys : List Key) :
    ((∃ e, fetchAll env bkt prfx base keys = .error e) ↔
      (∃ k ∈ keys, ∃ e, doFetch env bkt base k = .error e)) ∧
    (∀ e, fetchAll env bkt prfx base keys = .error e →
      e = levelErrMsg ((keys.map (doFetch env bkt base)).filterMap errProj)) := by
  constructor
  · constructor
    · rintro ⟨e, he⟩
      by_contra hnone
      push_neg at hnone
      have hall : ∀ r ∈ keys.map (doFetch env bkt base), ∃ c, r = .ok c := by
        intro r hr
        obtain ⟨k, hk, hrk⟩ := List.mem_map.mp hr
        cases hdf : doFetch env bkt base k with
        | error e2 => exact absurd hdf (hnone k hk e2)
        | ok c => exact ⟨c, by rw [← hrk, hdf]⟩
      have hnil := (errs_nil_iff _).mpr hall
      rw [fetchAll_eq, if_neg (by simp [hnil])] at he
      simp at he
    · rintro ⟨k, hk, e, hke⟩
      have hne : (keys.map (doFetch env bkt base)).filterMap errProj ≠ [] := by
        intro hnil
        obtain ⟨c, hc⟩ := (errs_nil_iff _).mp hnil (doFetch env bkt base k)
          (List.mem_map_of_mem _ hk)
        rw [hke] at hc
        simp at hc
      refine ⟨levelErrMsg ((keys.map (doFetch env bkt base)).filterMap errProj), ?_⟩
      rw [fetchAll_eq, if_pos (by simpa using hne)]
  · intro e he
    by_cases hnil : (keys.map (doFetch env bkt base)).filterMap errProj = []
    · rw [fetchAll_eq, if_neg (by simp [hnil])] at he
      simp at he
    · rw [fetchAll_eq, if_pos (by simpa using hnil)] at he
      injection he with he'
      exact he'.symm

/-- C3 witness: a two-key level whose second key cannot be fetched fails as
a whole, with the aggregated count-and-joined-messages error, returning no
objects. -/
theorem claim3_witness :
    fetchAll envD demoStore "" "root/" [⟨"root/x", tsD, 5⟩, ⟨"bad", tsD, 1⟩] =
      .error "1 errors: failed fetch of \"bad\": 404" ∧
    "1 errors: failed fetch of \"bad\": 404" =
      levelErrMsg (([⟨"root/x", tsD, 5⟩, ⟨"bad", tsD, 1⟩].map
        (doFetch envD demoStore "root/")).filterMap errProj) :=
  ⟨by decide,
    (claim3_level_failure_aggregation envD demoStore "" "root/"
      [⟨"root/x", tsD, 5⟩, ⟨"bad", tsD, 1⟩]).2 _ (by decide)⟩



/-- C1: a successful traversal of a level consists of the level's own
fetched leaves followed by the recursively fetched child-prefix subtree
results, in the order the listing returned the child prefixes. -/
theorem claim1_level_before_children (env : Env) (bkt : Store) (fuel : Nat)
    (prfx root path : String) (out : List S3Content)
    (h : fetchPath env bkt (fuel + 1) prfx root path = .ok out) :
    ∃ (listing : Listing) (level : List S3Content) (parts : List (List S3Content)),
      bkt.list path "/" "" 10000 = .ok listing ∧
      fetchAll env bkt prfx root listing.contents = .ok level ∧
      listing.commonPrefixes.map (fetchPath env bkt fuel (prfx ++ "\t") root) =
        parts.map Except.ok ∧
      out = level ++ parts.flatten := by
  rw [fetchPath] at h
  cases hl : bkt.list path "/" "" 10000 with
  | error e => simp only [hl] at h; exact absurd h (by simp)
  | ok listing =>
    simp only [hl] at h
    cases hf : fetchAll env bkt prfx root listing.contents with
    | error e => simp only [hf] at h; exact absurd h (by simp)
    | ok level =>
      simp only [hf] at h
      obtain ⟨parts, hmap, hout⟩ := fetchFolders_ok _ _ _ _ h
      exact ⟨listing, level, parts, rfl, hf, hmap, hout⟩

/-- C1 witness: the spec's concrete scenario — entry `x` (size 5, content
`hello`) appears before entry `sub/y` (size 5, content `world`), both in the
traversal output and in the decoded archive. -/
theorem claim1_witness :
    (∃ (listing : Listing) (level : List S3Content) (parts : List (List S3Content)),
      demoStore.list "root/" "/" "" 10000 = .ok listing ∧
      fetchAll envD demoStore "" "root/" listing.contents = .ok level ∧
      listing.commonPrefixes.map (fetchPath envD demoStore 1 ("" ++ "\t") "root/") =
        parts.map Except.ok ∧
      outD = level ++ parts.flatten) ∧
    fetchPath envD demoStore 2 "" "root/" "root/" = .ok outD ∧
    ∃ tarArch, tarify envD outD = .ok tarArch ∧
      untar tarArch =
        some [(strBytes "x", 5, helloB), (strBytes "sub/y", 5, worldB)] :=
  ⟨claim1_level_before_children envD demoStore 1 "" "root/" "root/" outD (by decide),
    by decide,
    ⟨_, tarify_ok envD outD (by decide),
      by rw [untar_archive envD outD (by decide)]; decide⟩⟩

/-- C4: for a traversal whose listing and fetch calls all succeed, the
produced archive decodes to exactly one entry per leaf key of the namespace,
each with recorded size equal to its payload's byte length. -/
theorem claim4_entry_count_and_sizes (env : Env) (bkt : Store) (fuel : Nat)
    (prfx root path : String) (out : List S3Content)
    (hout : fetchPath env bkt fuel prfx root path = .ok out)
    (hv : ∀ o ∈ out, validHeaderB (o.TarHeader env) = true) :
    ∃ tarArch, tarify env out = .ok tarArch ∧
      ∃ entries, untar tarArch = some entries ∧
        entries.length = countLeaves bkt fuel path ∧
        ∀ en ∈ entries, en.2.1 = en.2.2.length := by
  refine ⟨_, tarify_ok env out hv, _, untar_archive env out hv, ?_, ?_⟩
  · rw [List.length_map]
    exact fetchPath_ok_length env bkt fuel prfx root path out hout
  · intro en hen
    obtain ⟨o, ho, heq⟩ := List.mem_map.mp hen
    rw [← heq]

/-- C4 witness: the demonstration namespace has two leaf keys and its
archive decodes to two entries of sizes 5 and 5. -/
theorem claim4_witness :
    (∃ tarArch, tarify envD outD = .ok tarArch ∧
      ∃ entries, untar tarArch = some entries ∧
        entries.length = countLeaves demoStore 2 "root/" ∧
        ∀ en ∈ entries, en.2.1 = en.2.2.length) ∧
    countLeaves demoStore 2 "root/" = 2 :=
  ⟨claim4_entry_count_and_sizes envD demoStore 2 "" "root/" "root/" outD
    (by decide) (by decide), by decide⟩

/-- C6: if the traversal fails (any listing call or any fetch task), the
pipeline reports failure and persists nothing; a persisted output only ever
arises from a fully tarred and compressed traversal result. -/
theorem claim6_no_partial_output (env : Env) (bkt : Store) (fuel : Nat)
    (bktPath : String) :
    (∀ e, fetchPath env bkt fuel "" bktPath bktPath = .error e →
      run env bkt fuel bktPath =
        .error ("couldn't fetch " ++ quoted bktPath ++ ": " ++ e)) ∧
    (∀ out, run env bkt fuel bktPath = .ok out →
      ∃ contents tarArch,
        fetchPath env bkt fuel "" bktPath bktPath = .ok contents ∧
        tarify env contents = .ok tarArch ∧ out = env.gzip tarArch) := by
  constructor
  · intro e he
    rw [run]
    simp only [he]
  · intro out hout
    rw [run] at hout
    cases hf : fetchPath env bkt fuel "" bktPath bktPath with
    | error e => simp only [hf] at hout; exact absurd hout (by simp)
    | ok contents =>
      simp only [hf] at hout
      cases ht : tarify env contents with
      | error e2 => simp only [ht] at hout; exact absurd hout (by simp)
      | ok tarArch =>
        simp only [ht] at hout
        injection hout with hout2
        exact ⟨contents, tarArch, rfl, ht, hout2.symm⟩

/-- C6 witness: a store whose fetch of `root/sub/y` fails makes the whole
pipeline fail with the propagated aggregated error, persisting nothing. -/
theorem claim6_witness :
    run envD demoStoreBadGet 2 "root/" =
      .error ("couldn't fetch " ++ quoted "root/" ++ ": " ++
        "fetching content of keys at \"root/sub/\", 1 errors: failed fetch of \"root/sub/y\": boom") :=
  (claim6_no_partial_output envD demoStoreBadGet 2 "root/").1
    "fetching content of keys at \"root/sub/\", 1 errors: failed fetch of \"root/sub/y\": boom"
    (by decide)

/-- C7: for every successful traversal whose entries are representable, the
produced archive (the tar stream handed to the compressor, whose compressed
form is exactly what the pipeline persists) decodes header-by-header to the
original relative names and the original byte payloads. -/
theorem claim7_round_trip (env : Env) (bkt : Store) (fuel : Nat)
    (path : String) (out : List S3Content)
    (hout : fetchPath env bkt fuel "" path path = .ok out)
    (hv : ∀ o ∈ out, validHeaderB (o.TarHeader env) = true) :
    ∃ tarArch, tarify env out = .ok tarArch ∧
      run env bkt fuel path = .ok (env.gzip tarArch) ∧
      untar tarArch =
        some (out.map (fun o => (strBytes o.Name, o.Data.length, o.Data))) := by
  refine ⟨_, tarify_ok env out hv, ?_, untar_archive env out hv⟩
  rw [run]
  simp only [hout, tarify_ok env out hv]

/-- C7 witness: the demonstration archive decodes back to `x ↦ hello` and
`sub/y ↦ world`. -/
theorem claim7_witness :
    ∃ tarArch, tarify envD outD = .ok tarArch ∧
      run envD demoStore 2 "root/" = .ok (envD.gzip tarArch) ∧
      untar tarArch =
        some (outD.map (fun o => (strBytes o.Name, o.Data.length, o.Data))) :=
  claim7_round_trip envD demoStore 2 "root/" outD (by decide) (by decide)

/-- C9: a namespace level that lists no leaf keys and no child prefixes
(truncated or not) yields an empty traversal, and the pipeline produces the
structurally valid empty archive — no entry headers, exactly the two
all-zero terminator blocks — handed to the compressor. -/
theorem claim9_empty_archive (env : Env) (bkt : Store) (fuel : Nat)
    (path : String) (t : Bool)
    (hl : bkt.list path "/" "" 10000 = .ok ⟨[], [], t⟩) :
    fetchPath env bkt (fuel + 1) "" path path = .ok [] ∧
    tarify env [] = .ok terminator ∧
    terminator = List.replicate 1024 0 ∧
    untar terminator = some [] ∧
    run env bkt (fuel + 1) path = .ok (env.gzip terminator) := by
  have hfp : fetchPath env bkt (fuel + 1) "" path path = .ok [] := by
    rw [fetchPath]
    simp only [hl]
    rfl
  have hta : tarify env ([] : List S3Content) = .ok terminator := by
    have hw := tarifyW_buf_ok env [] (by simp) []
    rw [tarify, hw]
    simp
  refine ⟨hfp, hta, rfl, untar_terminator, ?_⟩
  rw [run]
  simp only [hfp, hta]

/-- C9 witness: the empty namespace `empty/` produces exactly the two
all-zero blocks, compressed. -/
theorem claim9_witness :
    fetchPath envD emptyStore 1 "" "empty/" "empty/" = .ok [] ∧
    tarify envD [] = .ok terminator ∧
    terminator = List.replicate 1024 0 ∧
    untar terminator = some [] ∧
    run envD emptyStore 1 "empty/" = .ok (envD.gzip terminator) :=
  claim9_empty_archive envD emptyStore 0 "empty/" false (by decide)



/-- C8: each level issues exactly one listing call — delimiter `/`, empty
marker, fixed page cap 10000 — and uses only that page's keys and prefixes:
two stores whose single-page listings agree up to the truncation flag (and
whose fetches agree) produce identical traversals, so a truncated listing's
remaining keys are silently dropped with no error. -/
theorem claim8_single_page_listing (env : Env) (bkt1 bkt2 : Store)
    (hlist : ∀ p, sameListing (bkt1.list p "/" "" 10000) (bkt2.list p "/" "" 10000))
    (hget : ∀ k, bkt1.get k = bkt2.get k) :
    ∀ (fuel : Nat) (prfx root path : String),
      fetchPath env bkt1 fuel prfx root path =
        fetchPath env bkt2 fuel prfx root path := by
  have hdo : ∀ base k, doFetch env bkt1 base k = doFetch env bkt2 base k := by
    intro base k
    rw [doFetch, doFetch, hget]
  have hfa : ∀ pfx base keys,
      fetchAll env bkt1 pfx base keys = fetchAll env bkt2 pfx base keys := by
    intro pfx base keys
    rw [fetchAll_eq, fetchAll_eq]
    have hmap : keys.map (doFetch env bkt1 base) = keys.map (doFetch env bkt2 base) :=
      List.map_congr_left (fun k _ => hdo base k)
    rw [hmap]
  intro fuel
  induction fuel with
  | zero => intro prfx root path; rfl
  | succ fuel ih =>
    intro prfx root path
    rw [fetchPath, fetchPath]
    have hs := hlist path
    cases h1 : bkt1.list path "/" "" 10000 with
    | error e1 =>
      cases h2 : bkt2.list path "/" "" 10000 with
      | error e2 =>
        rw [h1, h2] at hs
        simp only [sameListing] at hs
        rw [hs]
      | ok l2 =>
        rw [h1, h2] at hs
        simp only [sameListing] at hs
    | ok l1 =>
      cases h2 : bkt2.list path "/" "" 10000 with
      | error e2 =>
        rw [h1, h2] at hs
        simp only [sameListing] at hs
      | ok l2 =>
        rw [h1, h2] at hs
        simp only [sameListing] at hs
        obtain ⟨hc, hp⟩ := hs
        simp only [hc, hfa]
        cases fetchAll env bkt2 prfx root l2.contents with
        | error e => rfl
        | ok contents =>
          rw [hp]
          exact fetchFolders_congr _ _ (fun f => ih (prfx ++ "\t") root f) _ _

/-- C8 witness: the demonstration store and its everywhere-truncated twin
produce the same traversal, and the twin's root listing is truncated. -/
theorem claim8_witness :
    fetchPath envD demoStore 2 "" "root/" "root/" =
      fetchPath envD demoStoreTrunc 2 "" "root/" "root/" ∧
    demoStoreTrunc.list "root/" "/" "" 10000 =
      .ok ⟨[⟨"root/x", tsD, 5⟩], ["root/sub/"], true⟩ :=
  ⟨claim8_single_page_listing envD demoStore demoStoreTrunc
    (fun p => by
      cases h : demoStore.list p "/" "" 10000 with
      | error e => simp [demoStoreTrunc, sameListing, h]
      | ok l => simp [demoStoreTrunc, sameListing, h])
    (fun k => rfl) 2 "" "root/" "root/",
    by decide⟩

/-- C10: when the sink rejects a write, `tarifyW` returns the error
immediately: the sink keeps every byte of the entries already written (plus
whatever accepted portion of the failing write), the error names the entry
whose header or content write failed, and the terminator is only ever
written after every entry succeeded. -/
theorem claim10_archive_write_failure (env : Env) (wr : GoWriter)
    (hOk : ∀ s c, (wr s c).2 = none → (wr s c).1 = s ++ c)
    (hPre : ∀ s c, ∃ p t, p ++ t = c ∧ (wr s c).1 = s ++ p) :
    ∀ (objs : List S3Content) (s0 s : Bytes) (err : String),
      tarifyW env wr s0 objs = (s, some err) →
      (∃ pre o post, objs = pre ++ o :: post ∧
        (∀ x ∈ pre, validHeaderB (x.TarHeader env) = true) ∧
        ∃ p t, p ++ t = entryBytes env o ∧
          s = s0 ++ (pre.map (entryBytes env)).flatten ++ p ∧
          (err = "writing header of " ++ quoted o.Name ++ ", invalid header" ∨
           (∃ m, err = "writing header of " ++ quoted o.Name ++ ", " ++ m) ∨
           (∃ m, err = "writing content of " ++ quoted o.Name ++ ", " ++ m))) ∨
      ((∀ x ∈ objs, validHeaderB (x.TarHeader env) = true) ∧
        ∃ p t, p ++ t = terminator ∧
          s = s0 ++ (objs.map (entryBytes env)).flatten ++ p ∧
          ∃ m, err = "closing tar buffer, " ++ m) := by
  intro objs
  induction objs with
  | nil =>
    intro s0 s err h
    rw [tarifyW] at h
    obtain ⟨p, t, hpt, hs1⟩ := hPre s0 terminator
    cases hw : wr s0 terminator with
    | mk s1 oe =>
      rw [hw] at hs1
      cases oe with
      | none => simp only [hw] at h; exact absurd h (by simp)
      | some m =>
        have hs1b : s1 = s0 ++ p := hs1
        simp only [hw] at h
        injection h with h1 h2
        injection h2 with h2
        right
        refine ⟨by simp, p, t, hpt, ?_, m, h2.symm⟩
        rw [← h1, hs1b]
        simp
  | cons o rest ih =>
    intro s0 s err h
    rw [tarifyW] at h
    cases hE : encodeHeaderE (o.TarHeader env) with
    | none =>
      simp only [hE] at h
      injection h with h1 h2
      injection h2 with h2
      left
      refine ⟨[], o, rest, rfl, by simp, [], entryBytes env o, by simp, ?_,
        Or.inl h2.symm⟩
      rw [← h1]
      simp
    | some hb =>
      have hvo : validHeaderB (o.TarHeader env) = true := by
        by_contra hc
        simp [encodeHeaderE, hc] at hE
      have hEb : entryBytes env o =
          hb ++ (o.Data ++ List.replicate (padLen o.Data.length) 0) := by
        simp [entryBytes, encodeHeaderE, hvo]
        have : encodeHeader (o.TarHeader env) = hb := by
          have := hE
          simp [encodeHeaderE, hvo] at this
          exact this
        simp [this, List.append_assoc]
      simp only [hE] at h
      cases hw1 : wr s0 hb with
      | mk s1 oe1 =>
        cases oe1 with
        | some m =>
          obtain ⟨p, t, hpt, hs1⟩ := hPre s0 hb
          rw [hw1] at hs1
          have hs1 : s1 = s0 ++ p := hs1
          simp only [hw1] at h
          injection h with h1 h2
          injection h2 with h2
          left
          refine ⟨[], o, rest, rfl, by simp, p,
            t ++ (o.Data ++ List.replicate (padLen o.Data.length) 0), ?_, ?_,
            Or.inr (Or.inl ⟨m, h2.symm⟩)⟩
          · rw [hEb, ← hpt]
            simp [List.append_assoc]
          · rw [← h1, hs1]
            simp
        | none =>
          have hs1 : s1 = s0 ++ hb := by
            have := hOk s0 hb (by rw [hw1])
            rw [hw1] at this
            exact this
          simp only [hw1] at h
          cases hw2 : wr s1 (o.Data ++ List.replicate (padLen o.Data.length) 0) with
          | mk s2 oe2 =>
            cases oe2 with
            | some m =>
              obtain ⟨p, t, hpt, hs2⟩ :=
                hPre s1 (o.Data ++ List.replicate (padLen o.Data.length) 0)
              rw [hw2] at hs2
              have hs2 : s2 = s1 ++ p := hs2
              simp only [hw2] at h
              injection h with h1 h2
              injection h2 with h2
              left
              refine ⟨[], o, rest, rfl, by simp, hb ++ p, t, ?_, ?_,
                Or.inr (Or.inr ⟨m, h2.symm⟩)⟩
              · rw [hEb, ← hpt]
                simp [List.append_assoc]
              · rw [← h1, hs2, hs1]
                simp [List.append_assoc]
            | none =>
              have hs2 : s2 = s0 ++ entryBytes env o := by
                have h0 := hOk s1 (o.Data ++ List.replicate (padLen o.Data.length) 0)
                  (by rw [hw2])
                rw [hw2] at h0
                have h0b : s2 = s1 ++
                    (o.Data ++ List.replicate (padLen o.Data.length) 0) := h0
                rw [h0b, hs1, hEb, List.append_assoc]
              simp only [hw2] at h
              rcases ih s2 s err h with
                ⟨pre, o2, post, hobjs, hvpre, p, t, hpt, hs, herr⟩ |
                ⟨hvall, p, t, hpt, hs, herr⟩
              · left
                refine ⟨o :: pre, o2, post, by simp [hobjs], ?_, p, t, hpt, ?_, herr⟩
                · intro x hx
                  rcases List.mem_cons.mp hx with hx | hx
                  · rw [hx]; exact hvo
                  · exact hvpre x hx
                · rw [hs, hs2]
                  simp [List.append_assoc]
              · right
                refine ⟨?_, p, t, hpt, ?_, herr⟩
                · intro x hx
                  rcases List.mem_cons.mp hx with hx | hx
                  · rw [hx]; exact hvo
                  · exact hvall x hx
                · rw [hs, hs2]
                  simp [List.append_assoc]

/-- C10 witness: with a sink that rejects every write, tarring one entry
stops at that entry's header write, leaves the sink's stream untouched, and
never writes the terminator. -/
theorem claim10_witness :
    (∃ pre o post, [S3Content.mk "x" 7 helloB] = pre ++ o :: post ∧
      (∀ x ∈ pre, validHeaderB (x.TarHeader envD) = true) ∧
      ∃ p t, p ++ t = entryBytes envD o ∧
        ([] : Bytes) = [] ++ (pre.map (entryBytes envD)).flatten ++ p ∧
        (("writing header of " ++ quoted "x" ++ ", boom") =
            "writing header of " ++ quoted o.Name ++ ", invalid header" ∨
         (∃ m, ("writing header of " ++ quoted "x" ++ ", boom") =
            "writing header of " ++ quoted o.Name ++ ", " ++ m) ∨
         (∃ m, ("writing header of " ++ quoted "x" ++ ", boom") =
            "writing content of " ++ quoted o.Name ++ ", " ++ m))) ∨
    ((∀ x ∈ [S3Content.mk "x" 7 helloB], validHeaderB (x.TarHeader envD) = true) ∧
      ∃ p t, p ++ t = terminator ∧
        ([] : Bytes) = [] ++ ([S3Content.mk "x" 7 helloB].map (entryBytes envD)).flatten ++ p ∧
        ∃ m, ("writing header of " ++ quoted "x" ++ ", boom") =
          "closing tar buffer, " ++ m) :=
  claim10_archive_write_failure envD failWrite
    (fun s c hn => absurd hn (by simp [failWrite]))
    (fun s c => ⟨[], c, rfl, by simp [failWrite]⟩)
    [S3Content.mk "x" 7 helloB] [] []
    ("writing header of " ++ quoted "x" ++ ", boom")
    (by decide)


end Taring
